import Mathlib

/-!
# Verification of the `brace` JSON parsing library

A shallow embedding of the `brace` repository (C++): the tokenizer
(`src/src/tokenizer.cpp`, `src/include/priv/brace/tokenizer.h`), the
recursive-descent parser (`src/src/brace.cpp`), and the value model
(`src/include/brace/brace.h`).  Strings are modelled as `List Char`
(the C++ code is byte/ASCII oriented; the character-class predicates
below implement the C locale tables on the ASCII range).  The C++
`double` payload produced by `std::stod` is modelled as an exact
rational; all inputs appearing in the claims are small decimals on
which the two semantics agree.
-/

namespace Brace

/-- C locale `isalpha` restricted to ASCII, as used by `scan_tokens`. -/
def cIsAlpha (c : Char) : Bool :=
  ('a' ≤ c && c ≤ 'z') || ('A' ≤ c && c ≤ 'Z')

/-- C locale `isdigit`. -/
def cIsDigit (c : Char) : Bool :=
  '0' ≤ c && c ≤ '9'

/-- C locale `isalnum`. -/
def cIsAlnum (c : Char) : Bool :=
  cIsAlpha c || cIsDigit c

/-- C locale `ispunct` (printable, not alphanumeric, not space). -/
def cIsPunct (c : Char) : Bool :=
  (33 ≤ c.toNat && c.toNat ≤ 126) && !cIsAlnum c

/-- `TokenType` from `priv/brace/tokenizer.h`. -/
inductive TokenType where
  | Keyword
  | NumberLiteral
  | StringLiteral
  | Punctuation
  | Eof
deriving DecidableEq, Repr

/-- `Token` from `priv/brace/tokenizer.h`. -/
structure Token where
  type : TokenType
  lexeme : String
  line : Nat
  column : Nat
deriving DecidableEq, Repr

/-- `TokenizeError`: the stored fields `m_line`, `m_column` and the
formatted message. -/
structure TokenizeError where
  line : Nat
  column : Nat
  message : String
deriving DecidableEq, Repr

/-- The C++ accessor `TokenizeError::column()`.  Note that the source
returns `m_line` from this accessor (tokenizer.h lines 57-59), not
`m_column`; the embedding reproduces that faithfully. -/
def TokenizeError.columnAcc (e : TokenizeError) : Nat :=
  e.line

/-- `Tokenizer::advance` position update: consuming `c` at position
`(l, col)` yields the next position (line starts at 1, column resets
to 1 after a newline). -/
def advPos (l col : Nat) (c : Char) : Nat × Nat :=
  if c = '\n' then (l + 1, 1) else (l, col + 1)

/-- The inner loop of the `//` comment branch of
`Tokenizer::skip_whitespace`: consume characters while the current
character is not a newline (the newline itself is left unconsumed). -/
def skipLine (l col : Nat) : List Char → Nat × Nat × List Char
  | [] => (l, col, [])
  | c :: cs =>
    if c = '\n' then (l, col, c :: cs)
    else skipLine l (col + 1) cs

/-- The inner loop of the `/*` comment branch of
`Tokenizer::skip_whitespace`: consume characters until `*/` (both of
which are consumed) or end of input. -/
def skipBlock (l col : Nat) : List Char → Nat × Nat × List Char
  | [] => (l, col, [])
  | c :: cs =>
    if c = '*' && cs.head? = some '/' then (l, col + 2, cs.tail)
    else
      let p := advPos l col c
      skipBlock p.1 p.2 cs

theorem skipLine_length_le (l col : Nat) (cs : List Char) :
    (skipLine l col cs).2.2.length ≤ cs.length := by
  induction cs generalizing col with
  | nil => simp [skipLine]
  | cons c cs ih =>
    simp only [skipLine]
    split
    · simp
    · exact Nat.le_trans (ih (col + 1)) (Nat.le_succ _)

theorem skipBlock_length_le (l col : Nat) (cs : List Char) :
    (skipBlock l col cs).2.2.length ≤ cs.length := by
  induction cs generalizing l col with
  | nil => simp [skipBlock]
  | cons c cs ih =>
    simp only [skipBlock]
    split
    · cases cs with
      | nil => simp
      | cons d ds => simp; omega
    · exact Nat.le_trans (ih _ _) (Nat.le_succ _)

/-- `Tokenizer::skip_whitespace`: skip spaces, carriage returns, tabs,
newlines, `//` line comments and `/* */` block comments.  The loop is
expressed with an explicit step budget (`fuel`); every iteration
consumes at least one character, so the budget `rest.length + 1` used
by `skipWs` below is never exhausted, and on an exhausted budget with
empty input the result agrees with the loop anyway. -/
def skipWsF : Nat → Nat → Nat → List Char → Nat × Nat × List Char
  | 0, l, col, rest => (l, col, rest)
  | Nat.succ fuel, l, col, rest =>
    match rest with
    | [] => (l, col, [])
    | c :: cs =>
      if c = ' ' || c = '\r' || c = '\t' || c = '\n' then
        let p := advPos l col c
        skipWsF fuel p.1 p.2 cs
      else if c = '/' && cs.head? = some '/' then
        let r := skipLine l (col + 1) cs
        skipWsF fuel r.1 r.2.1 r.2.2
      else if c = '/' && cs.head? = some '*' then
        let r := skipBlock l (col + 2) cs.tail
        skipWsF fuel r.1 r.2.1 r.2.2
      else (l, col, c :: cs)

/-- `Tokenizer::skip_whitespace` with its always-sufficient budget. -/
def skipWs (l col : Nat) (rest : List Char) : Nat × Nat × List Char :=
  skipWsF (rest.length + 1) l col rest

/-- Maximal alphanumeric run, used by `Tokenizer::keyword`. -/
def takeAlnum : List Char → List Char × List Char
  | [] => ([], [])
  | c :: cs =>
    if cIsAlnum c then
      let r := takeAlnum cs
      (c :: r.1, r.2)
    else ([], c :: cs)

/-- Maximal digit run, used by `Tokenizer::number`. -/
def takeDigits : List Char → List Char × List Char
  | [] => ([], [])
  | c :: cs =>
    if cIsDigit c then
      let r := takeDigits cs
      (c :: r.1, r.2)
    else ([], c :: cs)

theorem takeAlnum_length_le (cs : List Char) :
    (takeAlnum cs).2.length ≤ cs.length := by
  induction cs with
  | nil => simp [takeAlnum]
  | cons c cs ih =>
    simp only [takeAlnum]
    split
    · exact Nat.le_trans ih (Nat.le_succ _)
    · simp

theorem takeDigits_length_le (cs : List Char) :
    (takeDigits cs).2.length ≤ cs.length := by
  induction cs with
  | nil => simp [takeDigits]
  | cons c cs ih =>
    simp only [takeDigits]
    split
    · exact Nat.le_trans ih (Nat.le_succ _)
    · simp

/-- `Tokenizer::keyword`: consume a maximal alphanumeric run; the
lexeme must be exactly `true`, `false` or `null`.  On success the
result carries the token, the new line/column, and the remaining
input; the token's column is `m_column - lexeme.length()` as in
`add_token`.  The error message reproduces the source's spelling. -/
def keywordScan (l col : Nat) (rest : List Char) :
    Except TokenizeError (Token × Nat × Nat × List Char) :=
  let r := takeAlnum rest
  let lexeme := String.mk r.1
  let col2 := col + r.1.length
  if lexeme = "true" || lexeme = "false" || lexeme = "null" then
    .ok (⟨.Keyword, lexeme, l, col2 - lexeme.length⟩, l, col2, r.2)
  else
    .error ⟨l, col2, "Unregonized keyword: " ++ lexeme⟩

/-- `peek` of the next character being a digit (`'\0'` at end of input
is not a digit). -/
def headIsDigit (cs : List Char) : Bool :=
  match cs.head? with
  | some c => cIsDigit c
  | none => false

/-- `Tokenizer::number`: optional `-`, a digit run, then optionally a
`.` that must be followed by at least one digit.  The token column is
`m_column - lexeme.length()` as in `add_token`. -/
def numberScan (l col : Nat) (rest : List Char) :
    Except TokenizeError (Token × Nat × Nat × List Char) :=
  let neg : Bool := rest.head? == some '-'
  let col1 := if neg then col + 1 else col
  let r1 := if neg then rest.tail else rest
  let d := takeDigits r1
  let col2 := col1 + d.1.length
  if d.2.head? = some '.' then
    let r3 := d.2.tail
    if headIsDigit r3 then
      let f := takeDigits r3
      let col3 := col2 + 1 + f.1.length
      let lexeme := String.mk ((if neg then ['-'] else []) ++ d.1 ++ '.' :: f.1)
      .ok (⟨.NumberLiteral, lexeme, l, col3 - lexeme.length⟩, l, col3, f.2)
    else
      .error ⟨l, col2 + 1, "Invalid number format"⟩
  else
    let lexeme := String.mk ((if neg then ['-'] else []) ++ d.1)
    .ok (⟨.NumberLiteral, lexeme, l, col2 - lexeme.length⟩, l, col2, d.2)

/-- The scanning loop of `Tokenizer::string` after the opening quote
has been consumed: collect raw characters verbatim until the closing
quote; a literal newline or end of input is an unterminated-string
error.  `col` is the column of the next unconsumed character. -/
def strBody (l col : Nat) : List Char →
    Except TokenizeError (List Char × Nat × Nat × List Char)
  | [] => .error ⟨l, col, "Unterminated string literal"⟩
  | c :: cs =>
    if c = '"' then .ok ([], l, col + 1, cs)
    else if c = '\n' then .error ⟨l, col, "Unterminated string literal"⟩
    else
      match strBody l (col + 1) cs with
      | .ok (v, l2, c2, rest) => .ok (c :: v, l2, c2, rest)
      | .error e => .error e

theorem strBody_length_le (l col : Nat) (cs : List Char)
    (v : List Char) (l2 c2 : Nat) (rest : List Char)
    (h : strBody l col cs = .ok (v, l2, c2, rest)) :
    rest.length ≤ cs.length := by
  induction cs generalizing col v l2 c2 rest with
  | nil => simp [strBody] at h
  | cons c cs ih =>
    simp only [strBody] at h
    split at h
    · simp at h
      obtain ⟨-, -, -, h4⟩ := h
      subst h4
      exact Nat.le_succ _
    · split at h
      · simp at h
      · cases h2 : strBody l (col + 1) cs with
        | ok r =>
          obtain ⟨v2, l3, c3, rest2⟩ := r
          rw [h2] at h
          simp at h
          obtain ⟨-, -, -, h4⟩ := h
          subst h4
          exact Nat.le_trans (ih _ _ _ _ _ h2) (Nat.le_succ _)
        | error e =>
          rw [h2] at h
          simp at h

theorem keywordScan_ok_length (l col : Nat) (c : Char) (cs : List Char)
    (hc : cIsAlnum c = true) (t : Token) (l2 c2 : Nat) (r2 : List Char)
    (h : keywordScan l col (c :: cs) = .ok (t, l2, c2, r2)) :
    r2.length ≤ cs.length := by
  unfold keywordScan at h
  simp only [takeAlnum, hc, if_true] at h
  split at h
  · simp only [Except.ok.injEq, Prod.mk.injEq] at h
    obtain ⟨-, -, -, h4⟩ := h
    subst h4
    exact takeAlnum_length_le cs
  · simp at h

theorem numberScan_ok_length (l col : Nat) (c : Char) (cs : List Char)
    (hc : cIsDigit c = true ∨ c = '-') (t : Token) (l2 c2 : Nat) (r2 : List Char)
    (h : numberScan l col (c :: cs) = .ok (t, l2, c2, r2)) :
    r2.length ≤ cs.length := by
  have bound1 : (takeDigits (takeDigits cs).2.tail).2.length ≤ cs.length :=
    calc (takeDigits (takeDigits cs).2.tail).2.length
        ≤ (takeDigits cs).2.tail.length := takeDigits_length_le _
      _ ≤ (takeDigits cs).2.length := by cases (takeDigits cs).2 <;> simp
      _ ≤ cs.length := takeDigits_length_le _
  have bound2 : (takeDigits cs).2.length ≤ cs.length := takeDigits_length_le _
  have hneg : ((c :: cs).head? == some '-') = (c == '-') := by simp
  cases hcc : (c == '-') with
  | false =>
    have hdig : cIsDigit c = true := by
      rcases hc with hdig | hminus
      · exact hdig
      · subst hminus
        simp at hcc
    simp only [numberScan, hneg, hcc, Bool.false_eq_true, if_false] at h
    simp only [takeDigits, hdig, if_true] at h
    split at h
    · split at h
      · simp only [Except.ok.injEq, Prod.mk.injEq] at h
        obtain ⟨-, -, -, h4⟩ := h
        rw [← h4]
        exact bound1
      · simp at h
    · simp only [Except.ok.injEq, Prod.mk.injEq] at h
      obtain ⟨-, -, -, h4⟩ := h
      rw [← h4]
      exact bound2
  | true =>
    simp only [numberScan, hneg, hcc, if_true, List.tail_cons] at h
    split at h
    · split at h
      · simp only [Except.ok.injEq, Prod.mk.injEq] at h
        obtain ⟨-, -, -, h4⟩ := h
        rw [← h4]
        exact bound1
      · simp at h
    · simp only [Except.ok.injEq, Prod.mk.injEq] at h
      obtain ⟨-, -, -, h4⟩ := h
      rw [← h4]
      exact bound2

theorem skipWsF_length_le (fuel : Nat) :
    ∀ (l col : Nat) (rest : List Char),
      (skipWsF fuel l col rest).2.2.length ≤ rest.length := by
  induction fuel with
  | zero =>
    intro l col rest
    simp [skipWsF]
  | succ fuel ih =>
    intro l col rest
    cases rest with
    | nil => simp [skipWsF]
    | cons c cs =>
      simp only [skipWsF]
      split
      · exact Nat.le_trans (ih _ _ cs) (Nat.le_succ _)
      · split
        · exact Nat.le_trans (ih _ _ _)
            (Nat.le_trans (skipLine_length_le l (col + 1) cs) (Nat.le_succ _))
        · split
          · refine Nat.le_trans (ih _ _ _) ?_
            refine Nat.le_trans (skipBlock_length_le l (col + 2) cs.tail) ?_
            refine Nat.le_trans ?_ (Nat.le_succ cs.length)
            cases cs <;> simp
          · simp

theorem skipWs_length_le (l col : Nat) (rest : List Char) :
    (skipWs l col rest).2.2.length ≤ rest.length :=
  skipWsF_length_le _ l col rest

/-- `Tokenizer::scan_tokens`: the main scanning loop.  Each iteration
skips whitespace and comments, then dispatches on the current
character exactly as the chain of tests in `scan_tokens` does
(`isalpha` / `isdigit` or `-`digit / `"` / `ispunct` / otherwise an
unexpected-character error).  `acc` is the `m_tokens` vector built so
far; the result also carries the final line/column, which `tokenize`
uses for the `Eof` token. -/
def scanTokensF : Nat → Nat → Nat → List Char → List Token →
    Except TokenizeError (List Token × Nat × Nat)
  | 0, _, _, _, _ => .error ⟨0, 0, "scan fuel exhausted"⟩
  | Nat.succ fuel, l, col, rest, acc =>
    match rest with
    | [] => .ok (acc, l, col)
    | c0 :: cs0 =>
      let w := skipWs l col (c0 :: cs0)
      match w.2.2 with
      | [] => .ok (acc, w.1, w.2.1)
      | c :: cs =>
        if cIsAlpha c then
          match keywordScan w.1 w.2.1 (c :: cs) with
          | .ok (t, l2, c2, r2) => scanTokensF fuel l2 c2 r2 (acc ++ [t])
          | .error e => .error e
        else if cIsDigit c || (c == '-' && headIsDigit cs) then
          match numberScan w.1 w.2.1 (c :: cs) with
          | .ok (t, l2, c2, r2) => scanTokensF fuel l2 c2 r2 (acc ++ [t])
          | .error e => .error e
        else if c = '"' then
          match strBody w.1 (w.2.1 + 1) cs with
          | .ok (v, l2, c2, r2) =>
            scanTokensF fuel l2 c2 r2
              (acc ++ [⟨.StringLiteral, String.mk v, l2, c2 - (String.mk v).length⟩])
          | .error e => .error e
        else if cIsPunct c then
          if c = ';' || c = ':' || c = ',' || c = '(' || c = ')' || c = '{'
              || c = '}' || c = '[' || c = ']' then
            scanTokensF fuel w.1 (w.2.1 + 1) cs
              (acc ++ [⟨.Punctuation, String.mk [c], w.1, w.2.1⟩])
          else
            .error ⟨w.1, w.2.1 + 1, "Unrecognized punctuation: " ++ String.mk [c]⟩
        else
          .error ⟨w.1, w.2.1, "Unexepcted character: '" ++ String.mk [c] ++ "'"⟩

/-- `Tokenizer::scan_tokens` with its always-sufficient step budget
(each iteration of the loop consumes at least one character, as the
`..._ok_length` lemmas above record, so `rest.length + 1` steps are
never exhausted). -/
def scanTokens (l col : Nat) (rest : List Char) (acc : List Token) :
    Except TokenizeError (List Token × Nat × Nat) :=
  scanTokensF (rest.length + 1) l col rest acc

/-- `Tokenizer::tokenize` on a character list: run the scanning loop
from position (1, 1), then append the `Eof` token (empty lexeme,
carrying the final line/column as `add_token` computes them). -/
def tokenizeChars (cs : List Char) : Except TokenizeError (List Token) :=
  match scanTokens 1 1 cs [] with
  | .error e => .error e
  | .ok (toks, l, col) => .ok (toks ++ [⟨.Eof, "", l, col⟩])

/-- `Tokenizer::tokenize`. -/
def tokenize (s : String) : Except TokenizeError (List Token) :=
  tokenizeChars s.data

/-- `std::tolower` on an ASCII character, as used in `parse_value`. -/
def toLowerChar (c : Char) : Char :=
  if 'A' ≤ c && c ≤ 'Z' then Char.ofNat (c.toNat + 32) else c

/-- The lowercased copy of a lexeme built at the top of
`Parser::parse_value`. -/
def lowerStr (s : String) : String :=
  String.mk (s.data.map toLowerChar)

/-- Decimal digit-run accumulator. -/
def digitsToNat (acc : Nat) : List Char → Nat
  | [] => acc
  | c :: cs => digitsToNat (acc * 10 + (c.toNat - 48)) cs

/-- `std::stod` restricted to the lexeme grammar produced by
`Tokenizer::number` (optional sign, digit run, optional fraction).
The `double` payload is modelled as an exact rational; on the small
decimal literals appearing in the claims the two agree. -/
def stod (s : String) : ℚ :=
  let cs := s.data
  let neg : Bool := cs.head? == some '-'
  let cs1 := if neg then cs.tail else cs
  let ip := (takeDigits cs1).1
  let rest := (takeDigits cs1).2
  let fp := if rest.head? = some '.' then (takeDigits rest.tail).1 else []
  let den := 10 ^ fp.length
  let v : ℚ := mkRat (Int.ofNat (digitsToNat 0 ip * den + digitsToNat 0 fp)) den
  if neg then Rat.neg v else v

/-- `JsonValue` from `brace/brace.h`: the tagged union
`Null | Bool | Number | String | Object | Array`.  The C++ `JsonObject`
(`std::unordered_map<std::string, JsonValue>`) is represented as an
association list with distinct keys; `JsonArray` is a list. -/
inductive JsonValue where
  | null
  | bool (b : Bool)
  | num (q : ℚ)
  | str (s : String)
  | obj (o : List (String × JsonValue))
  | arr (a : List JsonValue)

/-- `unordered_map::find`-based lookup on the association-list
representation of a `JsonObject`. -/
def lookupKV : List (String × JsonValue) → String → Option JsonValue
  | [], _ => none
  | (k, v) :: rest, key => if k = key then some v else lookupKV rest key

/-- `object[key] = value` on a `JsonObject`: replace the binding if the
key is present (last write wins), otherwise add it. -/
def insertKV : List (String × JsonValue) → String → JsonValue →
    List (String × JsonValue)
  | [], k, v => [(k, v)]
  | (k1, v1) :: rest, k, v =>
    if k1 = k then (k, v) :: rest else (k1, v1) :: insertKV rest k v

/-- `JsonValue::contains` from `brace/brace.h`: look the key up when
the value is an Object, return `false` for every other variant. -/
def JsonValue.contains : JsonValue → String → Bool
  | .obj o, key => (lookupKV o key).isSome
  | _, _ => false

/-- `ParseError` from `brace/brace.h`: stored line, column and
formatted message. -/
structure ParseError where
  line : Nat
  column : Nat
  message : String
deriving DecidableEq, Repr

/-- Outcome of a parser procedure: a value together with the cursor
after it (`m_current`), a `ParseError`, an out-of-bounds read of the
token vector by `peek()`/`advance()` (undefined behavior in the C++,
made explicit here), or an exhausted step budget (an artifact of the
fuelled embedding, never reached for the budget `parse` supplies). -/
inductive POut (α : Type) where
  | ok (v : α) (cursor : Nat)
  | err (e : ParseError)
  | oob
  | fail

/-- The five mutually recursive procedures of `Parser` — `parse_value`
(brace.cpp 25-70), the `parse_object` entry and its member loop
(72-114), and the `parse_array` entry and its element loop (116-138) —
built by recursion on the step budget: every procedure at budget
`fuel + 1` may call any procedure at budget `fuel`, which mirrors the
C++ mutual recursion while keeping the definition reducible.  Cursor
reads are `toks[cur]?`; the `none` case is the out-of-bounds access of
`peek()`/`advance()`. -/
def parserAt : Nat →
    (List Token → Nat → POut JsonValue) ×
    (List Token → Nat → POut (List (String × JsonValue))) ×
    (List Token → Nat → List (String × JsonValue) →
      POut (List (String × JsonValue))) ×
    (List Token → Nat → POut (List JsonValue)) ×
    (List Token → Nat → List JsonValue → POut (List JsonValue))
  | 0 =>
    (fun _ _ => .fail, fun _ _ => .fail, fun _ _ _ => .fail,
     fun _ _ => .fail, fun _ _ _ => .fail)
  | Nat.succ fuel =>
    ( -- `Parser::parse_value`: dispatch on the current token, with the
      -- case-insensitive keyword comparison of brace.cpp 27-33.
      fun toks cur =>
        match toks[cur]? with
        | none => .oob
        | some t =>
          let lower := lowerStr t.lexeme
          if t.type = .StringLiteral then .ok (.str t.lexeme) (cur + 1)
          else if t.type = .NumberLiteral then .ok (.num (stod t.lexeme)) (cur + 1)
          else if t.type = .Punctuation ∧ t.lexeme = "\x7b" then
            match (parserAt fuel).2.1 toks cur with
            | .ok o cur2 => .ok (.obj o) cur2
            | .err e => .err e
            | .oob => .oob
            | .fail => .fail
          else if t.type = .Punctuation ∧ t.lexeme = "[" then
            match (parserAt fuel).2.2.2.1 toks cur with
            | .ok a cur2 => .ok (.arr a) cur2
            | .err e => .err e
            | .oob => .oob
            | .fail => .fail
          else if t.type = .Keyword ∧ (lower = "true" ∨ lower = "false") then
            .ok (.bool (lower == "true")) (cur + 1)
          else if t.type = .Keyword ∧ lower = "null" then
            .ok .null (cur + 1)
          else
            .err ⟨t.line, t.column, "Unexpected token: " ++ t.lexeme⟩,
      -- `Parser::parse_object` entry: `advance()` past the `{`, then
      -- run the member loop.
      fun toks cur =>
        match toks[cur]? with
        | none => .oob
        | some _ => (parserAt fuel).2.2.1 toks (cur + 1) [],
      -- The member loop of `parse_object`, including the final
      -- `advance()` that consumes the `}` — executed, as an
      -- out-of-bounds read, when the loop stopped at end of tokens.
      fun toks cur ob =>
        match toks[cur]? with
        | none => .oob
        | some t =>
          if t.lexeme = "\x7d" then .ok ob (cur + 1)
          else if t.type ≠ .StringLiteral then
            .err ⟨t.line, t.column, "Expected string key in object"⟩
          else
            match toks[cur + 1]? with
            | none => .oob
            | some colon =>
              if colon.lexeme ≠ ":" then
                .err ⟨colon.line, colon.column, "Expected ':' after key in object"⟩
              else
                match (parserAt fuel).1 toks (cur + 2) with
                | .ok v cur2 =>
                  match toks[cur2]? with
                  | none => .oob
                  | some nxt =>
                    if nxt.lexeme = "," then
                      (parserAt fuel).2.2.1 toks (cur2 + 1) (insertKV ob t.lexeme v)
                    else if nxt.lexeme = "\x7d" then
                      (parserAt fuel).2.2.1 toks cur2 (insertKV ob t.lexeme v)
                    else
                      .err ⟨nxt.line, nxt.column, "Expected ',' or '\x7d' in object"⟩
                | .err e => .err e
                | .oob => .oob
                | .fail => .fail,
      -- `Parser::parse_array` entry: `advance()` past the `[`, then
      -- run the element loop.
      fun toks cur =>
        match toks[cur]? with
        | none => .oob
        | some _ => (parserAt fuel).2.2.2.2 toks (cur + 1) [],
      -- The element loop of `parse_array`, with the same final
      -- `advance()` behavior as the object loop.
      fun toks cur ar =>
        match toks[cur]? with
        | none => .oob
        | some t =>
          if t.lexeme = "]" then .ok ar (cur + 1)
          else
            match (parserAt fuel).1 toks cur with
            | .ok v cur2 =>
              match toks[cur2]? with
              | none => .oob
              | some nxt =>
                if nxt.lexeme = "," then
                  (parserAt fuel).2.2.2.2 toks (cur2 + 1) (ar ++ [v])
                else if nxt.lexeme = "]" then
                  (parserAt fuel).2.2.2.2 toks cur2 (ar ++ [v])
                else
                  .err ⟨nxt.line, nxt.column, "Expected ',' or ']' in array"⟩
            | .err e => .err e
            | .oob => .oob
            | .fail => .fail)

/-- `Parser::parse_value`. -/
def parseValueF (fuel : Nat) : List Token → Nat → POut JsonValue :=
  (parserAt fuel).1

/-- `Parser::parse_object` (entry). -/
def parseObjectF (fuel : Nat) :
    List Token → Nat → POut (List (String × JsonValue)) :=
  (parserAt fuel).2.1

/-- The member loop of `Parser::parse_object`. -/
def parseObjLoopF (fuel : Nat) :
    List Token → Nat → List (String × JsonValue) →
      POut (List (String × JsonValue)) :=
  (parserAt fuel).2.2.1

/-- `Parser::parse_array` (entry). -/
def parseArrayF (fuel : Nat) : List Token → Nat → POut (List JsonValue) :=
  (parserAt fuel).2.2.2.1

/-- The element loop of `Parser::parse_array`. -/
def parseArrLoopF (fuel : Nat) :
    List Token → Nat → List JsonValue → POut (List JsonValue) :=
  (parserAt fuel).2.2.2.2

/-- The parser step budget `parse` supplies: ample for the call depth
of the recursive descent over `toks` (each loop iteration or nesting
level consumes tokens, so the call depth is below `2 * length + 2`). -/
def parserFuel (toks : List Token) : Nat :=
  2 * toks.length + 2

/-- `Parser::parse`: tokenize, map a lexical error through the
`TokenizeError` accessors (`line()`, `column()`, `message()`) into a
`ParseError`, otherwise run `parse_value` from cursor 0.  The `oob`
and `fail` outcomes (undefined behavior / exhausted budget) are mapped
to designated error values so that `parse` is total. -/
def parse (s : String) : Except ParseError JsonValue :=
  match tokenize s with
  | .error e => .error ⟨e.line, e.columnAcc, e.message⟩
  | .ok toks =>
    match parseValueF (parserFuel toks) toks 0 with
    | .ok v _ => .ok v
    | .err e => .error e
    | .oob => .error ⟨0, 0, "token cursor out of bounds"⟩
    | .fail => .error ⟨0, 0, "parser fuel exhausted"⟩

/-- What `Parser::parse` does with a lexical error: it builds
`ParseError(err.line(), err.column(), err.message())`, where the
`column()` accessor of `TokenizeError` returns the stored line. -/
theorem parse_of_tokenize_error (s : String) (e : TokenizeError)
    (h : tokenize s = .error e) :
    parse s = .error ⟨e.line, e.columnAcc, e.message⟩ := by
  unfold parse
  rw [h]

/-- C1.  The claim states that a lexical error surfaces through
`parse` with the same line, column and message.  The code preserves
the line and the message and attempts no parsing, but
`TokenizeError::column()` (tokenizer.h lines 57-59) returns `m_line`
instead of `m_column`, so the `ParseError` built in `Parser::parse`
carries the lexical error's line in its column field.  On the input
`"\n @"` the lexical error is at line 2, column 3, while the parse
error carries column 2: the claim fails on the code, and the accessor
contradicts its own name — a code bug. -/
theorem C1_lex_error_column_not_preserved :
    tokenize "\n @" = Except.error ⟨2, 3, "Unrecognized punctuation: @"⟩ ∧
    parse "\n @" = Except.error ⟨2, 2, "Unrecognized punctuation: @"⟩ :=
  ⟨rfl, rfl⟩

/-- C2.  Trailing commas before the closing delimiter are accepted:
`parse` on `{"a":1,}` and `[1,2,]` succeeds and returns exactly the
result of the comma-less `{"a":1}` and `[1,2]`. -/
theorem C2_trailing_comma_tolerated :
    parse "\x7b\"a\":1,\x7d" = parse "\x7b\"a\":1\x7d" ∧
    parse "[1,2,]" = parse "[1,2]" ∧
    parse "\x7b\"a\":1\x7d" =
      Except.ok (JsonValue.obj [("a", JsonValue.num (mkRat 1 1))]) ∧
    parse "[1,2]" =
      Except.ok (JsonValue.arr [JsonValue.num (mkRat 1 1), JsonValue.num (mkRat 2 1)]) := by
  have h1 : parse "\x7b\"a\":1,\x7d" =
      Except.ok (JsonValue.obj [("a", JsonValue.num (mkRat 1 1))]) := rfl
  have h2 : parse "\x7b\"a\":1\x7d" =
      Except.ok (JsonValue.obj [("a", JsonValue.num (mkRat 1 1))]) := rfl
  have h3 : parse "[1,2,]" =
      Except.ok (JsonValue.arr [JsonValue.num (mkRat 1 1), JsonValue.num (mkRat 2 1)]) := rfl
  have h4 : parse "[1,2]" =
      Except.ok (JsonValue.arr [JsonValue.num (mkRat 1 1), JsonValue.num (mkRat 2 1)]) := rfl
  exact ⟨h1.trans h2.symm, h3.trans h4.symm, h2, h4⟩

/-- C3.  Duplicate object keys: the later binding overwrites the
earlier one, so `parse` on `{"a":1,"a":2}` succeeds and the resulting
Object maps `"a"` to the Number 2 (`mkRat 2 1`). -/
theorem C3_duplicate_key_last_write_wins :
    ∃ o, parse "\x7b\"a\":1,\"a\":2\x7d" = Except.ok (JsonValue.obj o) ∧
      lookupKV o "a" = some (JsonValue.num (mkRat 2 1)) :=
  ⟨[("a", JsonValue.num (mkRat 2 1))], rfl, rfl⟩

/-- C4.  Exponent notation is not recognized: scanning `{"x": 1e5}`
ends the number token at `1`, the following `e5` is scanned as a
keyword candidate and rejected, so both `tokenize` and `parse` fail
with the `UnrecognizedKeyword` error on the residual lexeme `e5`
(message `"Unregonized keyword: e5"`, the source's spelling) rather
than silently mis-parsing.  The lexical error is at line 1 column 10;
`parse` maps it through `TokenizeError::column()` (which returns the
line), hence column 1 on the parse side. -/
theorem C4_exponent_not_recognized :
    tokenize "\x7b\"x\": 1e5\x7d" =
      Except.error ⟨1, 10, "Unregonized keyword: e5"⟩ ∧
    parse "\x7b\"x\": 1e5\x7d" =
      Except.error ⟨1, 1, "Unregonized keyword: e5"⟩ :=
  ⟨rfl, rfl⟩

/-- C6.  Malformed input yields the correctly kinded error at the
correct position: `{"a" 1}` (missing colon) gives `ExpectedColon` at
the position of the `1` token (line 1, column 6), and the unterminated
string `{"a": "oops}` gives `UnterminatedString`. -/
theorem C6_malformed_input_errors :
    parse "\x7b\"a\" 1\x7d" =
      Except.error ⟨1, 6, "Expected ':' after key in object"⟩ ∧
    (∃ e, parse "\x7b\"a\": \"oops\x7d" = Except.error e ∧
      e.message = "Unterminated string literal") :=
  ⟨rfl, ⟨1, 1, "Unterminated string literal"⟩, rfl, rfl⟩

/-- C8.  `JsonValue::contains` is total and never traps: it returns
`true` exactly when the value is an Object whose mapping has an entry
for the key, and `false` for every non-Object value and absent key. -/
theorem C8_contains_total (v : JsonValue) (key : String) :
    v.contains key = true ↔
      ∃ o, v = JsonValue.obj o ∧ (lookupKV o key).isSome = true := by
  cases v <;> simp [JsonValue.contains]

/-- C9.  `parse` does not require the whole token stream to be
consumed: on `1 2` the tokenizer yields three tokens (two number
literals and `Eof`), `parse_value` succeeds after consuming only the
first (final cursor 1), and `parse` returns the Number 1, silently
ignoring the trailing token. -/
theorem C9_trailing_tokens_ignored :
    tokenize "1 2" = Except.ok
      [⟨TokenType.NumberLiteral, "1", 1, 1⟩,
       ⟨TokenType.NumberLiteral, "2", 1, 3⟩,
       ⟨TokenType.Eof, "", 1, 4⟩] ∧
    parseValueF
      (parserFuel
        [⟨TokenType.NumberLiteral, "1", 1, 1⟩,
         ⟨TokenType.NumberLiteral, "2", 1, 3⟩,
         ⟨TokenType.Eof, "", 1, 4⟩])
      [⟨TokenType.NumberLiteral, "1", 1, 1⟩,
       ⟨TokenType.NumberLiteral, "2", 1, 3⟩,
       ⟨TokenType.Eof, "", 1, 4⟩] 0 =
      POut.ok (JsonValue.num (mkRat 1 1)) 1 ∧
    parse "1 2" = Except.ok (JsonValue.num (mkRat 1 1)) :=
  ⟨rfl, rfl, rfl⟩

/-- Whether the character sequence contains the two-character close
delimiter `*/` anywhere (as an adjacent pair). -/
def hasClose : List Char → Bool
  | [] => false
  | [_] => false
  | a :: b :: rest => (a = '*' && b = '/') || hasClose (b :: rest)

theorem skipWsF_nil (fuel l col : Nat) :
    skipWsF fuel l col [] = (l, col, []) := by
  cases fuel <;> rfl

theorem skipBlock_no_close (s : List Char) :
    ∀ (l col : Nat), hasClose s = false →
      ∃ l2 c2, skipBlock l col s = (l2, c2, []) := by
  induction s with
  | nil =>
    intro l col h
    exact ⟨l, col, rfl⟩
  | cons a s ih =>
    intro l col h
    cases s with
    | nil =>
      refine ⟨(advPos l col a).1, (advPos l col a).2, ?_⟩
      rw [skipBlock, if_neg]
      · rfl
      · simp
    | cons b s2 =>
      have hsplit : ¬(a = '*' ∧ b = '/') ∧ hasClose (b :: s2) = false := by
        simp only [hasClose] at h
        constructor
        · intro hab
          rw [hab.1, hab.2] at h
          simp at h
        · cases hcl : hasClose (b :: s2) with
          | false => rfl
          | true =>
            rw [hcl] at h
            simp at h
      obtain ⟨l2, c2, hs⟩ := ih (advPos l col a).1 (advPos l col a).2 hsplit.2
      refine ⟨l2, c2, ?_⟩
      rw [skipBlock]
      split
      · rename_i hcond
        exfalso
        simp only [List.head?_cons, Bool.and_eq_true, decide_eq_true_eq,
          Option.some.injEq] at hcond
        exact hsplit.1 hcond
      · exact hs

theorem skipWsF_block_step (fuel l col : Nat) (s : List Char) :
    skipWsF (Nat.succ fuel) l col ('/' :: '*' :: s) =
      skipWsF fuel (skipBlock l (col + 2) s).1 (skipBlock l (col + 2) s).2.1
        (skipBlock l (col + 2) s).2.2 := by
  rw [skipWsF]
  simp

theorem scanTokensF_stop (fuel l col : Nat) (c0 : Char) (cs0 : List Char)
    (acc : List Token) (h : (skipWs l col (c0 :: cs0)).2.2 = []) :
    scanTokensF (Nat.succ fuel) l col (c0 :: cs0) acc =
      Except.ok (acc, (skipWs l col (c0 :: cs0)).1,
        (skipWs l col (c0 :: cs0)).2.1) := by
  rw [scanTokensF]
  simp only [h]

/-- C5.  An unterminated block comment consumes the rest of the input
and scanning succeeds: from any scanner state whose remaining input
starts with `/*` and never contains `*/`, `scan_tokens` returns
success with the token vector unchanged, and `tokenize` of such an
input produces only the `Eof` token. -/
theorem C5_unterminated_block_comment (s : List Char) (l col : Nat)
    (acc : List Token) (h : hasClose s = false) :
    (∃ l2 c2, scanTokens l col ('/' :: '*' :: s) acc = Except.ok (acc, l2, c2)) ∧
    (∃ l2 c2, tokenizeChars ('/' :: '*' :: s) =
      Except.ok [⟨TokenType.Eof, "", l2, c2⟩]) := by
  have main : ∀ (l col : Nat) (acc : List Token), ∃ l2 c2,
      scanTokens l col ('/' :: '*' :: s) acc = Except.ok (acc, l2, c2) := by
    intro l col acc
    obtain ⟨l2, c2, hb⟩ := skipBlock_no_close s l (col + 2) h
    have hskip : skipWs l col ('/' :: '*' :: s) = (l2, c2, []) := by
      unfold skipWs
      rw [show ('/' :: '*' :: s).length + 1 =
          Nat.succ (('/' :: '*' :: s).length) from rfl]
      rw [skipWsF_block_step, hb]
      exact skipWsF_nil _ _ _
    refine ⟨l2, c2, ?_⟩
    unfold scanTokens
    rw [show ('/' :: '*' :: s).length + 1 =
        Nat.succ (('/' :: '*' :: s).length) from rfl]
    rw [scanTokensF_stop _ _ _ _ _ _ (by rw [hskip])]
    rw [hskip]
  refine ⟨main l col acc, ?_⟩
  obtain ⟨l2, c2, hm⟩ := main 1 1 []
  refine ⟨l2, c2, ?_⟩
  unfold tokenizeChars
  rw [show scanTokens 1 1 ('/' :: '*' :: s) [] = Except.ok ([], l2, c2) from hm]
  rfl

/-- Witness for C5 at the concrete unterminated comment `/*a`. -/
theorem C5_witness :
    (∃ l2 c2, scanTokens 1 1 ('/' :: '*' :: ['a']) [] = Except.ok ([], l2, c2)) ∧
    (∃ l2 c2, tokenizeChars ('/' :: '*' :: ['a']) =
      Except.ok [⟨TokenType.Eof, "", l2, c2⟩]) :=
  C5_unterminated_block_comment ['a'] 1 1 [] rfl

/-- C7.  `tokenize` either fails or returns a complete token sequence
whose last element is the `Eof` token (the `Except` result carries
exactly one of the two, and scanning stops at the first error). -/
theorem C7_eof_terminated (s : String) (toks : List Token)
    (h : tokenize s = Except.ok toks) :
    ∃ t, toks.getLast? = some t ∧ t.type = TokenType.Eof := by
  unfold tokenize tokenizeChars at h
  cases hscan : scanTokens 1 1 s.data [] with
  | error e =>
    rw [hscan] at h
    simp at h
  | ok r =>
    obtain ⟨tk, l2, c2⟩ := r
    rw [hscan] at h
    simp only [Except.ok.injEq] at h
    subst h
    exact ⟨⟨TokenType.Eof, "", l2, c2⟩, List.getLast?_concat _, rfl⟩

/-- Witness for C7 at the empty input. -/
theorem C7_witness :
    ∃ t, [(⟨TokenType.Eof, "", 1, 1⟩ : Token)].getLast? = some t ∧
      t.type = TokenType.Eof :=
  C7_eof_terminated "" [⟨TokenType.Eof, "", 1, 1⟩] rfl

/-- The shape guarantee `tokenize` gives the parser: the token vector
ends with the `Eof` token, whose lexeme is empty. -/
def GoodToks (toks : List Token) : Prop :=
  ∃ t, toks.getLast? = some t ∧ t.type = TokenType.Eof ∧ t.lexeme = ""

theorem tokenize_goodToks (s : String) (toks : List Token)
    (h : tokenize s = Except.ok toks) : GoodToks toks := by
  unfold tokenize tokenizeChars at h
  cases hscan : scanTokens 1 1 s.data [] with
  | error e =>
    rw [hscan] at h
    simp at h
  | ok r =>
    obtain ⟨tk, l2, c2⟩ := r
    rw [hscan] at h
    simp only [Except.ok.injEq] at h
    subst h
    exact ⟨⟨TokenType.Eof, "", l2, c2⟩, List.getLast?_concat _, rfl, rfl⟩

/-- A token that is not the trailing `Eof` (by type or by lexeme) is
not the last one, so the cursor after it is still in bounds. -/
theorem good_succ_lt (toks : List Token) (cur : Nat) (t : Token)
    (hg : GoodToks toks) (hget : toks[cur]? = some t)
    (hne : t.type ≠ TokenType.Eof ∨ t.lexeme ≠ "") :
    cur + 1 < toks.length := by
  obtain ⟨tl, hlast, htype, hlex⟩ := hg
  have hcur : cur < toks.length := by
    by_contra hge
    rw [List.getElem?_eq_none (Nat.le_of_not_lt hge)] at hget
    simp at hget
  by_contra hge2
  have hcur_eq : cur = toks.length - 1 := by omega
  rw [List.getLast?_eq_getElem?, ← hcur_eq, hget] at hlast
  simp only [Option.some.injEq] at hlast
  subst hlast
  rcases hne with hne | hne
  · exact hne htype
  · exact hne hlex

/-- The in-bounds invariant for a parser-procedure outcome: the
out-of-bounds marker is not produced, and a success leaves the cursor
inside the token vector. -/
abbrev POk {α : Type} (toks : List Token) (r : POut α) : Prop :=
  r ≠ POut.oob ∧ ∀ (v : α) (cur2 : Nat), r = POut.ok v cur2 → cur2 < toks.length

theorem POk_err {α : Type} (toks : List Token) (e : ParseError) :
    POk toks (POut.err e : POut α) :=
  ⟨by simp, by simp⟩

theorem POk_fail {α : Type} (toks : List Token) :
    POk toks (POut.fail : POut α) :=
  ⟨by simp, by simp⟩

theorem POk_ok {α : Type} (toks : List Token) (v : α) (cur2 : Nat)
    (h : cur2 < toks.length) : POk toks (POut.ok v cur2) := by
  constructor
  · simp
  · intro v2 c2 he
    simp only [POut.ok.injEq] at he
    omega

/-- The joint in-bounds invariant of the five parser procedures, by
induction on the step budget: with a `GoodToks` token vector and a
cursor in bounds (one before the end, for the two entry procedures
that have already peeked at the opening brace/bracket), no procedure
performs an out-of-bounds read, and success leaves the cursor in
bounds. -/
theorem parserAt_inbounds (fuel : Nat) (toks : List Token) (hg : GoodToks toks) :
    (∀ cur, cur < toks.length → POk toks ((parserAt fuel).1 toks cur)) ∧
    (∀ cur, cur + 1 < toks.length → POk toks ((parserAt fuel).2.1 toks cur)) ∧
    (∀ cur ob, cur < toks.length → POk toks ((parserAt fuel).2.2.1 toks cur ob)) ∧
    (∀ cur, cur + 1 < toks.length → POk toks ((parserAt fuel).2.2.2.1 toks cur)) ∧
    (∀ cur ar, cur < toks.length → POk toks ((parserAt fuel).2.2.2.2 toks cur ar)) := by
  induction fuel with
  | zero =>
    refine ⟨?_, ?_, ?_, ?_, ?_⟩ <;> intros <;> exact POk_fail toks
  | succ fuel ih =>
    obtain ⟨ihv, iho, ihol, iha, ihal⟩ := ih
    refine ⟨?_, ?_, ?_, ?_, ?_⟩
    · -- parse_value
      intro cur hcur
      simp only [parserAt]
      rw [List.getElem?_eq_getElem hcur]
      simp only []
      split
      · rename_i hstr
        exact POk_ok toks _ _ (good_succ_lt toks cur _ hg
          (List.getElem?_eq_getElem hcur) (Or.inl (by rw [hstr]; simp)))
      · split
        · rename_i hnum
          exact POk_ok toks _ _ (good_succ_lt toks cur _ hg
            (List.getElem?_eq_getElem hcur) (Or.inl (by rw [hnum]; simp)))
        · split
          · rename_i hobj
            have hnext : cur + 1 < toks.length :=
              good_succ_lt toks cur _ hg (List.getElem?_eq_getElem hcur)
                (Or.inl (by rw [hobj.1]; simp))
            cases hsub : (parserAt fuel).2.1 toks cur with
            | ok o cur2 =>
              exact POk_ok toks _ _ ((iho cur hnext).2 o cur2 hsub)
            | err e => exact POk_err toks e
            | oob => exact absurd hsub (iho cur hnext).1
            | fail => exact POk_fail toks
          · split
            · rename_i harr
              have hnext : cur + 1 < toks.length :=
                good_succ_lt toks cur _ hg (List.getElem?_eq_getElem hcur)
                  (Or.inl (by rw [harr.1]; simp))
              cases hsub : (parserAt fuel).2.2.2.1 toks cur with
              | ok a cur2 =>
                exact POk_ok toks _ _ ((iha cur hnext).2 a cur2 hsub)
              | err e => exact POk_err toks e
              | oob => exact absurd hsub (iha cur hnext).1
              | fail => exact POk_fail toks
            · split
              · rename_i hkw
                exact POk_ok toks _ _ (good_succ_lt toks cur _ hg
                  (List.getElem?_eq_getElem hcur) (Or.inl (by rw [hkw.1]; simp)))
              · split
                · rename_i hkw
                  exact POk_ok toks _ _ (good_succ_lt toks cur _ hg
                    (List.getElem?_eq_getElem hcur) (Or.inl (by rw [hkw.1]; simp)))
                · exact POk_err toks _
    · -- parse_object entry
      intro cur hcur
      simp only [parserAt]
      rw [List.getElem?_eq_getElem (by omega : cur < toks.length)]
      simp only []
      exact ihol (cur + 1) [] hcur
    · -- parse_object member loop
      intro cur ob hcur
      simp only [parserAt]
      rw [List.getElem?_eq_getElem hcur]
      simp only []
      split
      · rename_i hbrace
        exact POk_ok toks _ _ (good_succ_lt toks cur _ hg
          (List.getElem?_eq_getElem hcur) (Or.inr (by rw [hbrace]; simp)))
      · split
        · exact POk_err toks _
        · rename_i hnotbrace hkey
          have hstr : toks[cur].type = TokenType.StringLiteral := by
            by_contra hc
            exact hkey hc
          have h1 : cur + 1 < toks.length :=
            good_succ_lt toks cur _ hg (List.getElem?_eq_getElem hcur)
              (Or.inl (by rw [hstr]; simp))
          rw [List.getElem?_eq_getElem h1]
          simp only []
          split
          · exact POk_err toks _
          · rename_i hcolon
            have hcl : toks[cur + 1].lexeme = ":" := by
              by_contra hc
              exact hcolon hc
            have h2 : cur + 2 < toks.length := by
              have := good_succ_lt toks (cur + 1) _ hg
                (List.getElem?_eq_getElem h1) (Or.inr (by rw [hcl]; simp))
              omega
            cases hsub : (parserAt fuel).1 toks (cur + 2) with
            | ok v cur2 =>
              have hcur2 : cur2 < toks.length := (ihv (cur + 2) h2).2 v cur2 hsub
              simp only []
              rw [List.getElem?_eq_getElem hcur2]
              simp only []
              split
              · rename_i hcomma
                have h3 : cur2 + 1 < toks.length :=
                  good_succ_lt toks cur2 _ hg (List.getElem?_eq_getElem hcur2)
                    (Or.inr (by rw [hcomma]; simp))
                exact ihol (cur2 + 1) _ h3
              · split
                · exact ihol cur2 _ hcur2
                · exact POk_err toks _
            | err e => exact POk_err toks e
            | oob => exact absurd hsub (ihv (cur + 2) h2).1
            | fail => exact POk_fail toks
    · -- parse_array entry
      intro cur hcur
      simp only [parserAt]
      rw [List.getElem?_eq_getElem (by omega : cur < toks.length)]
      simp only []
      exact ihal (cur + 1) [] hcur
    · -- parse_array element loop
      intro cur ar hcur
      simp only [parserAt]
      rw [List.getElem?_eq_getElem hcur]
      simp only []
      split
      · rename_i hbracket
        exact POk_ok toks _ _ (good_succ_lt toks cur _ hg
          (List.getElem?_eq_getElem hcur) (Or.inr (by rw [hbracket]; simp)))
      · cases hsub : (parserAt fuel).1 toks cur with
        | ok v cur2 =>
          have hcur2 : cur2 < toks.length := (ihv cur hcur).2 v cur2 hsub
          simp only []
          rw [List.getElem?_eq_getElem hcur2]
          simp only []
          split
          · rename_i hcomma
            have h3 : cur2 + 1 < toks.length :=
              good_succ_lt toks cur2 _ hg (List.getElem?_eq_getElem hcur2)
                (Or.inr (by rw [hcomma]; simp))
            exact ihal (cur2 + 1) _ h3
          · split
            · exact ihal cur2 _ hcur2
            · exact POk_err toks _
        | err e => exact POk_err toks e
        | oob => exact absurd hsub (ihv cur hcur).1
        | fail => exact POk_fail toks

/-- C10.  For token vectors produced by `tokenize`, every token-array
read performed by the parser's `peek`/`advance` is in bounds: the
out-of-bounds branch of the `Option`-returning embedding is never
taken, for any step budget, starting from cursor 0 as `parse` does. -/
theorem C10_parser_reads_in_bounds (s : String) (toks : List Token)
    (fuel : Nat) (h : tokenize s = Except.ok toks) :
    parseValueF fuel toks 0 ≠ POut.oob := by
  have hg := tokenize_goodToks s toks h
  have hlen : 0 < toks.length := by
    obtain ⟨t, hlast, -, -⟩ := hg
    cases toks with
    | nil => simp at hlast
    | cons a as => simp
  exact ((parserAt_inbounds fuel toks hg).1 0 hlen).1

/-- Witness for C10 on the tokens of the input `1`. -/
theorem C10_witness :
    parseValueF 5
      [⟨TokenType.NumberLiteral, "1", 1, 1⟩, ⟨TokenType.Eof, "", 1, 2⟩] 0 ≠
      POut.oob :=
  C10_parser_reads_in_bounds "1"
    [⟨TokenType.NumberLiteral, "1", 1, 1⟩, ⟨TokenType.Eof, "", 1, 2⟩] 5 rfl

end Brace
